import Mathlib

/-!
Verification of the code-correction HTTP route of the ai-code-fixer
repository.  The route receives a correction request, calls an external
completion provider, and normalizes the raw reply into a well-shaped
correction result.  Strings are modelled as Lean strings (lists of
unicode characters), the dynamic values produced by the runtime
structured-data parser are modelled by the inductive type `Json`, and
the route handler is a pure function from its three external inputs
(credential presence, parsed request body, provider outcome) to the
HTTP-style response it produces.
-/

namespace AiCodeFixer

/-- The opening brace character, written via its code point. -/
def lbrace : Char := Char.ofNat 123

/-- The closing brace character, written via its code point. -/
def rbrace : Char := Char.ofNat 125

/-- The backquote character used by markdown fences. -/
def btick : Char := Char.ofNat 96

/-- The character class matched by the script-language whitespace rules
(`String.prototype.trim` and the regex class used by the route):
WhiteSpace together with LineTerminator code points. -/
def jsWsChar (c : Char) : Bool :=
  c = ' ' || c = '\t' || c = '\n' || c = '\r' ||
  c = Char.ofNat 11 || c = Char.ofNat 12 || c = Char.ofNat 160 ||
  c = Char.ofNat 0x1680 || (0x2000 ≤ c.toNat && c.toNat ≤ 0x200a) ||
  c = Char.ofNat 0x2028 || c = Char.ofNat 0x2029 || c = Char.ofNat 0x202f ||
  c = Char.ofNat 0x205f || c = Char.ofNat 0x3000 || c = Char.ofNat 0xfeff

/-- Whitespace accepted between tokens by the structured-data grammar. -/
def jsonWsChar (c : Char) : Bool :=
  c = ' ' || c = '\t' || c = '\n' || c = '\r'

/-- Drop leading structured-data whitespace. -/
def skipWs (cs : List Char) : List Char := cs.dropWhile jsonWsChar

/-- `trim` on a character list: drop script-language whitespace from both
ends (model of `String.prototype.trim`). -/
def jsTrimL (cs : List Char) : List Char :=
  ((cs.dropWhile jsWsChar).reverse.dropWhile jsWsChar).reverse

/-- `trim` on strings. -/
def jsTrimS (s : String) : String := String.mk (jsTrimL s.toList)

/-- `beginsWith pat l` holds when `pat` is an initial segment of `l`. -/
def beginsWith : List Char → List Char → Bool
  | [], _ => true
  | _ :: _, [] => false
  | p :: ps, c :: cs => if p = c then beginsWith ps cs else false

/-- Substring occurrence test at the head position. -/
def isSubAt : List Char → List Char → Bool
  | [], _ => true
  | _ :: _, [] => false
  | p :: ps, c :: cs => if p = c then isSubAt ps cs else false

/-- Substring occurrence anywhere (model of `String.prototype.includes`). -/
def hasSub : List Char → List Char → Bool
  | [], sub => sub.isEmpty
  | c :: rest, sub => isSubAt sub (c :: rest) || hasSub rest sub

/-- `includes` on strings: `jsIncludes hay needle` holds when `needle`
occurs as a contiguous substring of `hay`. -/
def jsIncludes (hay needle : String) : Bool := hasSub hay.toList needle.toList

/-- The characters of the labeled opening fence marker. -/
def fenceJson : List Char :=
  btick :: btick :: btick :: 'j' :: 's' :: 'o' :: 'n' :: []

/-- The characters of the bare fence marker. -/
def fence3 : List Char := btick :: btick :: btick :: []

/-- Strip a trailing fence marker and the whitespace run before it
(model of replacing the anchored trailing-fence pattern). -/
def stripClose (cs : List Char) : List Char :=
  let r := cs.reverse
  if beginsWith fence3 r then ((r.drop 3).dropWhile jsWsChar).reverse else cs

/-- The markdown-fence stripping step of the route: if the text starts
with the labeled fence marker, remove it and the following whitespace,
then remove a trailing fence marker; likewise for a bare fence marker. -/
def fenceStrip (cs : List Char) : List Char :=
  if beginsWith fenceJson cs then stripClose ((cs.drop 7).dropWhile jsWsChar)
  else if beginsWith fence3 cs then stripClose ((cs.drop 3).dropWhile jsWsChar)
  else cs

/-- The brace-scanning step: the route matches the greedy pattern from
the first opening brace to the last closing brace and, when it matches,
keeps only that substring. -/
def braceScan (cs : List Char) : List Char :=
  if (((cs.dropWhile (fun c => c != lbrace)).reverse.dropWhile
        (fun c => c != rbrace)).reverse).isEmpty then cs
  else ((cs.dropWhile (fun c => c != lbrace)).reverse.dropWhile
        (fun c => c != rbrace)).reverse

/-- The full cleanup pipeline applied to a raw provider reply before the
parse attempt: trim, strip markdown fences, scan for the brace span. -/
def cleanCandidate (reply : String) : List Char :=
  braceScan (fenceStrip (jsTrimL reply.toList))

/-- Dynamic values produced by the runtime structured-data parser. -/
inductive Json where
  | null
  | bool (b : Bool)
  | num (q : Rat)
  | str (s : String)
  | arr (elems : List Json)
  | obj (fields : List (String × Json))

/-- Numeric value of one hexadecimal digit character. -/
def hexVal (c : Char) : Option Nat :=
  if 48 ≤ c.toNat ∧ c.toNat ≤ 57 then some (c.toNat - 48)
  else if 97 ≤ c.toNat ∧ c.toNat ≤ 102 then some (c.toNat - 87)
  else if 65 ≤ c.toNat ∧ c.toNat ≤ 70 then some (c.toNat - 55)
  else none

/-- Single-character string escapes of the structured-data grammar. -/
def escChar (c : Char) : Option Char :=
  if c = '"' then some '"'
  else if c = '\\' then some '\\'
  else if c = '/' then some '/'
  else if c = 'b' then some (Char.ofNat 8)
  else if c = 'f' then some (Char.ofNat 12)
  else if c = 'n' then some '\n'
  else if c = 'r' then some '\r'
  else if c = 't' then some '\t'
  else none

/-- Parse the body of a string literal, after the opening quote: returns
the decoded characters and the remainder after the closing quote. -/
def parseStrChars : List Char → Option (List Char × List Char)
  | [] => none
  | c :: cs =>
    if c = '"' then some ([], cs)
    else if c = '\\' then
      match cs with
      | [] => none
      | e :: cs2 =>
        if e = 'u' then
          match cs2 with
          | a :: b :: c3 :: d :: cs3 =>
            match hexVal a, hexVal b, hexVal c3, hexVal d with
            | some ha, some hb, some hc, some hd =>
              (parseStrChars cs3).map
                (fun p => (Char.ofNat (ha * 4096 + hb * 256 + hc * 16 + hd) :: p.1, p.2))
            | _, _, _, _ => none
          | _ => none
        else
          match escChar e with
          | some ec => (parseStrChars cs2).map (fun p => (ec :: p.1, p.2))
          | none => none
    else if c.toNat < 32 then none
    else (parseStrChars cs).map (fun p => (c :: p.1, p.2))

/-- Decimal value of a digit-character run. -/
def digitsToNat (ds : List Char) : Nat :=
  ds.foldl (fun a c => a * 10 + (c.toNat - 48)) 0

/-- Add the optional fractional part of a numeric literal to the value
of its integer part. -/
def fracVal (intVal : Rat) (cs2 : List Char) : Option (Rat × List Char) :=
  match cs2 with
  | c :: r =>
    if c = '.' then
      let fds := r.takeWhile Char.isDigit
      if fds = [] then none
      else some (intVal + (digitsToNat fds : Rat) / ((10 : Rat) ^ fds.length),
                 r.dropWhile Char.isDigit)
    else some (intVal, cs2)
  | [] => some (intVal, cs2)

/-- Apply the optional exponent part of a numeric literal. -/
def expVal (v : Rat) (cs3 : List Char) : Option (Rat × List Char) :=
  match cs3 with
  | c :: r =>
    if c = 'e' ∨ c = 'E' then
      let esigned : Int × List Char :=
        match r with
        | d :: q => if d = '+' then (1, q) else if d = '-' then (-1, q) else (1, r)
        | [] => (1, r)
      let eds := esigned.2.takeWhile Char.isDigit
      if eds = [] then none
      else some (v * (10 : Rat) ^ (esigned.1 * (digitsToNat eds : Int)),
                 esigned.2.dropWhile Char.isDigit)
    else some (v, cs3)
  | [] => some (v, cs3)

/-- Parse a numeric literal of the structured-data grammar (optional
sign, integer part without leading zeros, optional fraction, optional
exponent), returning its exact rational value. -/
def parseNum (cs : List Char) : Option (Rat × List Char) :=
  let signed : Bool × List Char :=
    match cs with
    | c :: r => if c = '-' then (true, r) else (false, cs)
    | [] => (false, cs)
  let neg := signed.1
  let cs1 := signed.2
  let intDs := cs1.takeWhile Char.isDigit
  let cs2 := cs1.dropWhile Char.isDigit
  if intDs = [] then none
  else if intDs.head? = some '0' ∧ intDs.length ≠ 1 then none
  else
    match fracVal ((digitsToNat intDs : Nat) : Rat) cs2 with
    | none => none
    | some (v, cs3) =>
      match expVal v cs3 with
      | none => none
      | some (w, cs4) => some (if neg then -w else w, cs4)

/-- Parse the elements of a non-empty array given a parser for values;
the fuel bounds the number of elements. -/
def parseElemsWith (pv : List Char → Option (Json × List Char)) :
    Nat → List Char → Option (List Json × List Char)
  | 0, _ => none
  | fuel + 1, cs =>
    match pv cs with
    | none => none
    | some (v, r) =>
      match skipWs r with
      | [] => none
      | d :: r2 =>
        if d = ',' then
          match parseElemsWith pv fuel r2 with
          | none => none
          | some (vs, r3) => some (v :: vs, r3)
        else if d = ']' then some ([v], r2)
        else none

/-- Parse the members of a non-empty object given a parser for values;
the fuel bounds the number of members. -/
def parseMembersWith (pv : List Char → Option (Json × List Char)) :
    Nat → List Char → Option (List (String × Json) × List Char)
  | 0, _ => none
  | fuel + 1, cs =>
    match skipWs cs with
    | [] => none
    | c :: r =>
      if c = '"' then
        match parseStrChars r with
        | none => none
        | some (k, r1) =>
          match skipWs r1 with
          | [] => none
          | d :: r2 =>
            if d = ':' then
              match pv r2 with
              | none => none
              | some (v, r3) =>
                match skipWs r3 with
                | [] => none
                | e :: r4 =>
                  if e = ',' then
                    match parseMembersWith pv fuel r4 with
                    | none => none
                    | some (ms, r5) => some ((String.mk k, v) :: ms, r5)
                  else if e = rbrace then some ([(String.mk k, v)], r4)
                  else none
            else none
      else none

/-- Parse one structured-data value; the fuel bounds the nesting depth. -/
def parseVal : Nat → List Char → Option (Json × List Char)
  | 0, _ => none
  | fuel + 1, cs =>
    match skipWs cs with
    | [] => none
    | c :: r =>
      if c = 't' then
        match r with
        | 'r' :: 'u' :: 'e' :: r2 => some (.bool true, r2)
        | _ => none
      else if c = 'f' then
        match r with
        | 'a' :: 'l' :: 's' :: 'e' :: r2 => some (.bool false, r2)
        | _ => none
      else if c = 'n' then
        match r with
        | 'u' :: 'l' :: 'l' :: r2 => some (.null, r2)
        | _ => none
      else if c = '"' then
        (parseStrChars r).map (fun p => (Json.str (String.mk p.1), p.2))
      else if c = '[' then
        match skipWs r with
        | [] => none
        | d :: _ =>
          if d = ']' then some (.arr [], (skipWs r).tail)
          else
            match parseElemsWith (parseVal fuel) (r.length + 1) r with
            | none => none
            | some (vs, r2) => some (.arr vs, r2)
      else if c = lbrace then
        match skipWs r with
        | [] => none
        | d :: _ =>
          if d = rbrace then some (.obj [], (skipWs r).tail)
          else
            match parseMembersWith (parseVal fuel) (r.length + 1) r with
            | none => none
            | some (ms, r2) => some (.obj ms, r2)
      else (parseNum (c :: r)).map (fun p => (Json.num p.1, p.2))

/-- Model of the runtime structured-data parser applied to a whole text:
one value surrounded by optional whitespace; anything else fails. -/
def jsonParse (cs : List Char) : Option Json :=
  match parseVal (cs.length + 1) cs with
  | some (v, rest) => if skipWs rest = [] then some v else none
  | none => none

/-- Member lookup on parsed object fields; with duplicated keys the last
binding wins, as in the runtime. -/
def objGet : List (String × Json) → String → Option Json
  | [], _ => none
  | (k, v) :: rest, key =>
    match objGet rest key with
    | some r => some r
    | none => if k = key then some v else none

/-- Message of the TypeError the runtime throws for property access on
the null value, naming the member being read (the quote marks that the
runtime puts around the member name are omitted). -/
def nullReadMessage (key : String) : String :=
  "Cannot read properties of null (reading " ++ key ++ ")"

/-- Dynamic member access as the runtime performs it: property access
on the null value throws a TypeError naming the member; on any other
non-object value it yields undefined (modelled as `none`). -/
def jget : Json → String → Except String (Option Json)
  | .obj fs, key => .ok (objGet fs key)
  | .null, key => .error (nullReadMessage key)
  | _, _ => .ok none

/-- Truthiness of a dynamic value. -/
def truthyV : Json → Bool
  | .null => false
  | .bool b => b
  | .num q => q != 0
  | .str s => s != ""
  | .arr _ => true
  | .obj _ => true

/-- Truthiness of a possibly-absent dynamic value. -/
def truthyO : Option Json → Bool
  | none => false
  | some v => truthyV v

/-- The request body shape declared by the route. -/
structure CorrectionRequest where
  code : String
  language : String
  description : Option String
deriving DecidableEq

/-- The response shape declared by the route (static typing). -/
structure CorrectionResponse where
  correctedCode : String
  explanation : String
  issues : List String
deriving DecidableEq

/-- The success body actually produced at runtime: its fields are
dynamic values, since the runtime check on the parsed reply is only a
truthiness check, not a type check. -/
structure ResponseBody where
  correctedCode : Json
  explanation : Json
  issues : Json

/-- Canned explanation used when the parsed reply lacks a truthy
`explanation`. -/
def cannedExplanation : String :=
  "Code has been analyzed and corrections have been applied."

/-- Explanation used in fallback mode. -/
def fallbackExplanation : String :=
  "Groq provided feedback but in an unexpected format. The raw response is shown as comments in the corrected code section above your original code."

/-- Explanation used when the parsed reply lacks a truthy
`correctedCode`. -/
def missingExplanation : String :=
  "Groq response was missing the corrected code. Please try again."

/-- The three fixed diagnostics of fallback mode. -/
def fallbackIssues : List String :=
  ["JSON parsing failed - Groq returned non-JSON format",
   "Check the raw response in the corrected code section",
   "Try submitting the code again for a properly formatted response"]

/-- The two fixed diagnostics of the missing-field mode. -/
def missingIssues : List String :=
  ["Invalid API response format", "Missing corrected code field"]

/-- The single default diagnostic used when `issues` is absent or not
an array. -/
def defaultIssue : String := "Code analysis completed"

/-- Comment-annotate a reply: the global replacement of each newline by
a newline followed by a comment marker. -/
def annotate : List Char → List Char
  | [] => []
  | c :: cs =>
    if c = '\n' then '\n' :: '/' :: '/' :: ' ' :: annotate cs
    else c :: annotate cs

/-- The synthesized `correctedCode` of fallback mode: the raw reply as
comments, followed by the original input code unchanged. -/
def fallbackCorrected (code reply : String) : String :=
  "// Groq response (parsing failed):\n// " ++ String.mk (annotate reply.toList) ++
    "\n\n// Original code:\n" ++ code

/-- The repair applied to the parsed `issues` member: an array is kept
as is (whatever its elements), anything else — absent value included —
is replaced by the fixed one-element default. -/
def issuesRepair (isv : Option Json) : Json :=
  match isv with
  | some (.arr xs) => .arr xs
  | _ => .arr [.str defaultIssue]

/-- The response-normalization logic of the route: clean the raw reply,
attempt the structured-data parse, and produce the fallback, the
missing-field echo, or the validated result.  The member accesses on
the parsed value can throw (when the parsed value is null); a thrown
error propagates to the route's catch block. -/
def normalize (code reply : String) : Except String ResponseBody :=
  match jsonParse (cleanCandidate reply) with
  | none =>
    .ok { correctedCode := .str (fallbackCorrected code reply)
          explanation := .str fallbackExplanation
          issues := .arr (fallbackIssues.map Json.str) }
  | some parsed =>
    match jget parsed "correctedCode" with
    | .error m => .error m
    | .ok cc =>
      if truthyO cc = false then
        .ok { correctedCode := .str code
              explanation := .str missingExplanation
              issues := .arr (missingIssues.map Json.str) }
      else
        match jget parsed "explanation" with
        | .error m => .error m
        | .ok exv =>
          match jget parsed "issues" with
          | .error m => .error m
          | .ok isv =>
            .ok { correctedCode := cc.getD .null
                  explanation :=
                    if truthyO exv = true then exv.getD .null
                    else .str cannedExplanation
                  issues := issuesRepair isv }

/-- Error body of the route: a message and an optional details field. -/
structure ErrorBody where
  error : String
  details : Option String
deriving DecidableEq

/-- A route response: a success body (status 200) or an error body with
an explicit status. -/
inductive RouteResponse where
  | ok (body : ResponseBody)
  | err (status : Nat) (body : ErrorBody)

/-- Error message for a missing credential. -/
def apiKeyMissingError : String :=
  "Groq API key not configured. Please add GROQ_API_KEY to your environment variables."

/-- Error message for a rejected credential. -/
def authError : String :=
  "Invalid Groq API key. Please check your GROQ_API_KEY in environment variables."

/-- Error message for throttling. -/
def rateLimitError : String :=
  "Groq API rate limit exceeded. Please try again in a moment."

/-- Error message for network timeouts. -/
def timeoutError : String :=
  "Network timeout. Please check your connection and try again."

/-- Error message for structured-data errors from a lower layer. -/
def responseFormatError : String :=
  "Groq returned an invalid response format. Please try again."

/-- Generic error message. -/
def genericError : String :=
  "Failed to analyze code with Groq API. Please try again."

/-- The catch-block classification of a thrown error by substrings of
its message. -/
def classifyError (m : String) : RouteResponse :=
  if jsIncludes m "API key" || jsIncludes m "authentication" || jsIncludes m "unauthorized" then
    .err 401 ⟨authError, none⟩
  else if jsIncludes m "rate limit" || jsIncludes m "quota" || jsIncludes m "limit exceeded" then
    .err 429 ⟨rateLimitError, none⟩
  else if jsIncludes m "timeout" || jsIncludes m "network" then
    .err 504 ⟨timeoutError, none⟩
  else if jsIncludes m "JSON" || jsIncludes m "parse" then
    .err 500 ⟨responseFormatError, none⟩
  else
    .err 500 ⟨genericError, some m⟩

/-- The POST route handler, as a function of its three external inputs:
whether the credential is configured, the outcome of parsing the request
body, and the outcome of the provider call (each failure carrying the
thrown error message). -/
def handlePost (apiKeyConfigured : Bool)
    (body : Except String CorrectionRequest)
    (provider : Except String String) : RouteResponse :=
  if apiKeyConfigured = false then .err 500 ⟨apiKeyMissingError, none⟩
  else
    match body with
    | .error m => classifyError m
    | .ok req =>
      if req.code = "" ∨ jsTrimS req.code = "" then .err 400 ⟨"Code is required", none⟩
      else
        match provider with
        | .error m => classifyError m
        | .ok responseText =>
          match normalize req.code responseText with
          | .ok body => .ok body
          | .error m => classifyError m

/-- Hexadecimal digit character for a value below sixteen. -/
def hexDigit (n : Nat) : Char :=
  if n < 10 then Char.ofNat (48 + n) else Char.ofNat (87 + n)

/-- Serialize one character of a string literal: escape the quote and
the backslash, encode control characters numerically, and emit every
other character verbatim. -/
def encodeChar (c : Char) : List Char :=
  if c = '"' then ['\\', '"']
  else if c = '\\' then ['\\', '\\']
  else if c.toNat < 32 then
    ['\\', 'u', '0', '0', hexDigit (c.toNat / 16), hexDigit (c.toNat % 16)]
  else [c]

/-- Serialize the characters of a string-literal body. -/
def encodeStrChars (l : List Char) : List Char := (l.map encodeChar).flatten

/-- Serialize a string as a quoted literal. -/
def quoteStr (s : String) : List Char :=
  '"' :: encodeStrChars s.toList ++ ['"']

/-- Serialize a comma-separated list of string literals. -/
def issuesChars : List String → List Char
  | [] => []
  | [x] => quoteStr x
  | x :: y :: rest => quoteStr x ++ ',' :: issuesChars (y :: rest)

/-- The members of the serialized correction result, without the
surrounding braces. -/
def objInner (r : CorrectionResponse) : List Char :=
  quoteStr "correctedCode" ++ ':' :: quoteStr r.correctedCode ++
  ',' :: quoteStr "explanation" ++ ':' :: quoteStr r.explanation ++
  ',' :: quoteStr "issues" ++ ':' :: '[' :: issuesChars r.issues ++ [']']

/-- The characters of the serialized correction result. -/
def stringifyChars (r : CorrectionResponse) : List Char :=
  lbrace :: objInner r ++ [rbrace]

/-- The serialized form of a correction result: the exact structured
text a well-behaved provider is instructed to reply with. -/
def stringifyResult (r : CorrectionResponse) : String :=
  String.mk (stringifyChars r)

/-- The dynamic value denoted by a serialized correction result. -/
def resultJson (r : CorrectionResponse) : Json :=
  .obj [("correctedCode", .str r.correctedCode),
        ("explanation", .str r.explanation),
        ("issues", .arr (r.issues.map Json.str))]

/-- Separator-and-rest of a serialized issue list after its first
element. -/
def issuesSep : List String → List Char
  | [] => []
  | y :: ys => ',' :: issuesChars (y :: ys)

theorem mk_toList (s : String) : String.mk s.toList = s := rfl

theorem toList_mk (l : List Char) : (String.mk l).toList = l := rfl

theorem skipWs_dq (l : List Char) : skipWs ('"' :: l) = '"' :: l := rfl

theorem skipWs_colon (l : List Char) : skipWs (':' :: l) = ':' :: l := rfl

theorem skipWs_comma (l : List Char) : skipWs (',' :: l) = ',' :: l := rfl

theorem skipWs_rbrack (l : List Char) : skipWs (']' :: l) = ']' :: l := rfl

theorem jsWs_lbrace : jsWsChar lbrace = false := rfl

theorem jsWs_rbrace : jsWsChar rbrace = false := rfl

theorem issuesChars_cons (x : String) (xs : List String) :
    issuesChars (x :: xs) = quoteStr x ++ issuesSep xs := by
  cases xs <;> simp [issuesChars, issuesSep]

theorem issuesChars_length_ge (x : String) (xs : List String) :
    xs.length ≤ (issuesChars (x :: xs)).length := by
  induction xs generalizing x with
  | nil => simp
  | cons y ys ih =>
    rw [show issuesChars (x :: y :: ys) = quoteStr x ++ ',' :: issuesChars (y :: ys) from rfl]
    have h := ih y
    simp only [List.length_append, List.length_cons]
    omega

theorem hexVal_hexDigit (k : Nat) (h : k < 16) : hexVal (hexDigit k) = some k := by
  interval_cases k <;> decide

theorem parseStrChars_encode (l rest : List Char) :
    parseStrChars (encodeStrChars l ++ '"' :: rest) = some (l, rest) := by
  induction l with
  | nil =>
    rw [show encodeStrChars [] ++ '"' :: rest = '"' :: rest by simp [encodeStrChars]]
    rw [parseStrChars.eq_def]
    simp
  | cons c l ih =>
    rw [show encodeStrChars (c :: l) = encodeChar c ++ encodeStrChars l by
          simp [encodeStrChars],
        List.append_assoc]
    by_cases hq : c = '"'
    · subst hq
      rw [show encodeChar '"' = ['\\', '"'] from rfl]
      rw [show (['\\', '"'] : List Char) ++ (encodeStrChars l ++ '"' :: rest)
            = '\\' :: '"' :: (encodeStrChars l ++ '"' :: rest) from rfl]
      rw [parseStrChars.eq_def]
      simp [escChar, ih]
    · by_cases hb : c = '\\'
      · subst hb
        rw [show encodeChar '\\' = ['\\', '\\'] from rfl]
        rw [show (['\\', '\\'] : List Char) ++ (encodeStrChars l ++ '"' :: rest)
              = '\\' :: '\\' :: (encodeStrChars l ++ '"' :: rest) from rfl]
        rw [parseStrChars.eq_def]
        simp [escChar, ih]
      · by_cases hlt : c.toNat < 32
        · rw [show encodeChar c = ['\\', 'u', '0', '0', hexDigit (c.toNat / 16),
                hexDigit (c.toNat % 16)] by simp [encodeChar, hq, hb, hlt]]
          rw [show (['\\', 'u', '0', '0', hexDigit (c.toNat / 16),
                hexDigit (c.toNat % 16)] : List Char) ++ (encodeStrChars l ++ '"' :: rest)
              = '\\' :: 'u' :: '0' :: '0' :: hexDigit (c.toNat / 16) ::
                  hexDigit (c.toNat % 16) :: (encodeStrChars l ++ '"' :: rest) from rfl]
          rw [parseStrChars.eq_def]
          have h0 : hexVal '0' = some 0 := rfl
          have hd1 := hexVal_hexDigit (c.toNat / 16) (by omega)
          have hd2 := hexVal_hexDigit (c.toNat % 16) (by omega)
          have hc2 : Char.ofNat (c.toNat / 16 * 16 + c.toNat % 16) = c := by
            rw [show c.toNat / 16 * 16 + c.toNat % 16 = c.toNat by omega, Char.ofNat_toNat]
          simp [h0, hd1, hd2, ih, hc2]
        · rw [show encodeChar c = [c] by simp [encodeChar, hq, hb, hlt]]
          rw [show ([c] : List Char) ++ (encodeStrChars l ++ '"' :: rest)
                = c :: (encodeStrChars l ++ '"' :: rest) by simp]
          rw [parseStrChars.eq_def]
          simp [hq, hb, hlt, ih]

theorem parseElemsWith_step (pv : List Char → Option (Json × List Char))
    (fuel : Nat) (cs : List Char) :
    parseElemsWith pv (fuel + 1) cs
      = (match pv cs with
         | none => none
         | some (v, r) =>
           match skipWs r with
           | [] => none
           | d :: r2 =>
             if d = ',' then
               match parseElemsWith pv fuel r2 with
               | none => none
               | some (vs, r3) => some (v :: vs, r3)
             else if d = ']' then some ([v], r2)
             else none) := rfl

theorem parseVal_dq (fuel : Nat) (l : List Char) :
    parseVal (fuel + 1) ('"' :: l)
      = (parseStrChars l).map (fun p => (Json.str (String.mk p.1), p.2)) := rfl

theorem parseVal_lbrack (fuel : Nat) (l : List Char) :
    parseVal (fuel + 1) ('[' :: l)
      = (match skipWs l with
         | [] => none
         | d :: _ =>
           if d = ']' then some (Json.arr [], (skipWs l).tail)
           else
             match parseElemsWith (parseVal fuel) (l.length + 1) l with
             | none => none
             | some (vs, r2) => some (Json.arr vs, r2)) := rfl

theorem parseVal_lbrace_step (fuel : Nat) (l : List Char) :
    parseVal (fuel + 1) (lbrace :: l)
      = (match skipWs l with
         | [] => none
         | d :: _ =>
           if d = rbrace then some (Json.obj [], (skipWs l).tail)
           else
             match parseMembersWith (parseVal fuel) (l.length + 1) l with
             | none => none
             | some (ms, r2) => some (Json.obj ms, r2)) := rfl

theorem parseMembersWith_dq (pv : List Char → Option (Json × List Char))
    (fuel : Nat) (l : List Char) :
    parseMembersWith pv (fuel + 1) ('"' :: l)
      = (match parseStrChars l with
         | none => none
         | some (k, r1) =>
           match skipWs r1 with
           | [] => none
           | d :: r2 =>
             if d = ':' then
               match pv r2 with
               | none => none
               | some (v, r3) =>
                 match skipWs r3 with
                 | [] => none
                 | e :: r4 =>
                   if e = ',' then
                     match parseMembersWith pv fuel r4 with
                     | none => none
                     | some (ms, r5) => some ((String.mk k, v) :: ms, r5)
                   else if e = rbrace then some ([(String.mk k, v)], r4)
                   else none
             else none) := rfl

theorem parseVal_quote (F : Nat) (s : String) (rest : List Char) :
    parseVal (F + 1) (quoteStr s ++ rest) = some (Json.str s, rest) := by
  rw [show quoteStr s ++ rest = '"' :: (encodeStrChars s.toList ++ '"' :: rest) by
        simp [quoteStr]]
  rw [parseVal_dq, parseStrChars_encode]
  dsimp only [Option.map]
  rw [mk_toList]

theorem parseMembersWith_cons (pv : List Char → Option (Json × List Char)) (fuel : Nat)
    (key : String) (v : Json) (valRest tail : List Char)
    (hv : pv valRest = some (v, ',' :: tail)) :
    parseMembersWith pv (fuel + 1) ('"' :: (encodeStrChars key.toList ++ '"' :: ':' :: valRest))
      = (match parseMembersWith pv fuel tail with
         | none => none
         | some (ms, r5) => some ((key, v) :: ms, r5)) := by
  rw [parseMembersWith_dq, parseStrChars_encode]
  dsimp only
  rw [skipWs_colon]
  dsimp only
  rw [if_pos (rfl : (':' : Char) = ':'), hv]
  dsimp only
  rw [skipWs_comma]
  dsimp only
  rw [if_pos (rfl : (',' : Char) = ','), mk_toList]

theorem parseMembersWith_last (pv : List Char → Option (Json × List Char)) (fuel : Nat)
    (key : String) (v : Json) (valRest tail : List Char)
    (hv : pv valRest = some (v, rbrace :: tail)) :
    parseMembersWith pv (fuel + 1) ('"' :: (encodeStrChars key.toList ++ '"' :: ':' :: valRest))
      = some ([(key, v)], tail) := by
  rw [parseMembersWith_dq, parseStrChars_encode]
  dsimp only
  rw [skipWs_colon]
  dsimp only
  rw [if_pos (rfl : (':' : Char) = ':'), hv]
  dsimp only
  rw [show skipWs (rbrace :: tail) = rbrace :: tail from rfl]
  dsimp only
  rw [if_neg (show ¬(rbrace = ',') by decide),
      if_pos (rfl : rbrace = rbrace), mk_toList]

theorem parseElemsWith_mono (pv : List Char → Option (Json × List Char)) :
    ∀ (f1 f2 : Nat), f1 ≤ f2 → ∀ (cs : List Char) (res : List Json × List Char),
      parseElemsWith pv f1 cs = some res → parseElemsWith pv f2 cs = some res := by
  intro f1
  induction f1 with
  | zero =>
    intro f2 h cs res hres
    simp [parseElemsWith] at hres
  | succ n ih =>
    intro f2 h cs res hres
    obtain ⟨m, rfl⟩ : ∃ m, f2 = m + 1 := ⟨f2 - 1, by omega⟩
    simp only [parseElemsWith] at hres ⊢
    cases hpv : pv cs with
    | none => simp [hpv] at hres
    | some p =>
      obtain ⟨v, r⟩ := p
      simp only [hpv] at hres ⊢
      cases hsk : skipWs r with
      | nil => simp [hsk] at hres
      | cons d r2 =>
        simp only [hsk] at hres ⊢
        by_cases hd : d = ','
        · rw [if_pos hd] at hres ⊢
          cases hrec : parseElemsWith pv n r2 with
          | none => simp [hrec] at hres
          | some q =>
            simp only [hrec] at hres
            rw [ih m (by omega) r2 q hrec]
            exact hres
        · rw [if_neg hd] at hres ⊢
          exact hres

theorem parseMembersWith_mono (pv : List Char → Option (Json × List Char)) :
    ∀ (f1 f2 : Nat), f1 ≤ f2 → ∀ (cs : List Char) (res : List (String × Json) × List Char),
      parseMembersWith pv f1 cs = some res → parseMembersWith pv f2 cs = some res := by
  intro f1
  induction f1 with
  | zero =>
    intro f2 h cs res hres
    simp [parseMembersWith] at hres
  | succ n ih =>
    intro f2 h cs res hres
    obtain ⟨m, rfl⟩ : ∃ m, f2 = m + 1 := ⟨f2 - 1, by omega⟩
    simp only [parseMembersWith] at hres ⊢
    cases hsk : skipWs cs with
    | nil => simp [hsk] at hres
    | cons c r =>
      simp only [hsk] at hres ⊢
      by_cases hc : c = '"'
      · rw [if_pos hc] at hres ⊢
        cases hps : parseStrChars r with
        | none => simp [hps] at hres
        | some kp =>
          obtain ⟨k, r1⟩ := kp
          simp only [hps] at hres ⊢
          cases hsk1 : skipWs r1 with
          | nil => simp [hsk1] at hres
          | cons d r2 =>
            simp only [hsk1] at hres ⊢
            by_cases hd : d = ':'
            · rw [if_pos hd] at hres ⊢
              cases hpv : pv r2 with
              | none => simp [hpv] at hres
              | some vp =>
                obtain ⟨v, r3⟩ := vp
                simp only [hpv] at hres ⊢
                cases hsk3 : skipWs r3 with
                | nil => simp [hsk3] at hres
                | cons e r4 =>
                  simp only [hsk3] at hres ⊢
                  by_cases he : e = ','
                  · rw [if_pos he] at hres ⊢
                    cases hrec : parseMembersWith pv n r4 with
                    | none => simp [hrec] at hres
                    | some q =>
                      simp only [hrec] at hres
                      rw [ih m (by omega) r4 q hrec]
                      exact hres
                  · rw [if_neg he] at hres ⊢
                    exact hres
            · rw [if_neg hd] at hres ⊢
              exact hres
      · rw [if_neg hc] at hres ⊢
        exact hres

theorem parseElems_encode (F : Nat) : ∀ (xs : List String) (x : String) (rest : List Char),
    parseElemsWith (parseVal (F + 1)) (xs.length + 1) (issuesChars (x :: xs) ++ ']' :: rest)
      = some (Json.str x :: xs.map Json.str, rest) := by
  intro xs
  induction xs with
  | nil =>
    intro x rest
    rw [show issuesChars [x] = quoteStr x from rfl]
    rw [parseElemsWith_step, parseVal_quote]
    dsimp only
    rw [skipWs_rbrack]
    dsimp only
    rw [if_neg (show ¬((']' : Char) = ',') by decide),
        if_pos (rfl : (']' : Char) = ']')]
    simp
  | cons y ys ih =>
    intro x rest
    rw [show issuesChars (x :: y :: ys) = quoteStr x ++ ',' :: issuesChars (y :: ys) from rfl]
    rw [show (quoteStr x ++ ',' :: issuesChars (y :: ys)) ++ ']' :: rest
          = quoteStr x ++ (',' :: (issuesChars (y :: ys) ++ ']' :: rest)) by simp]
    rw [parseElemsWith_step, parseVal_quote]
    dsimp only
    rw [skipWs_comma]
    dsimp only
    rw [if_pos (rfl : (',' : Char) = ',')]
    rw [show ((y :: ys : List String).length : Nat) = ys.length + 1 from rfl]
    rw [ih y rest]
    simp

theorem parseVal_issues (F : Nat) (xs : List String) (rest : List Char) :
    parseVal (F + 2) ('[' :: (issuesChars xs ++ ']' :: rest))
      = some (Json.arr (xs.map Json.str), rest) := by
  rw [show F + 2 = (F + 1) + 1 from rfl, parseVal_lbrack]
  cases xs with
  | nil =>
    rw [show issuesChars [] = ([] : List Char) from rfl]
    rw [show ([] : List Char) ++ ']' :: rest = ']' :: rest from rfl]
    rw [skipWs_rbrack]
    dsimp only
    rw [if_pos (rfl : (']' : Char) = ']')]
    simp
  | cons x xs2 =>
    have hexpose : issuesChars (x :: xs2) ++ ']' :: rest
        = '"' :: (encodeStrChars x.toList ++ '"' :: (issuesSep xs2 ++ ']' :: rest)) := by
      rw [issuesChars_cons]
      simp [quoteStr]
    rw [hexpose, skipWs_dq]
    dsimp only
    rw [if_neg (show ¬(('"' : Char) = ']') by decide)]
    rw [← hexpose]
    have hmin := parseElems_encode F xs2 x rest
    have hlen : xs2.length + 1 ≤ (issuesChars (x :: xs2) ++ ']' :: rest).length + 1 := by
      have h := issuesChars_length_ge x xs2
      simp only [List.length_append, List.length_cons]
      omega
    rw [parseElemsWith_mono (parseVal (F + 1)) (xs2.length + 1)
        ((issuesChars (x :: xs2) ++ ']' :: rest).length + 1) hlen _ _ hmin]
    simp

theorem parseVal_stringify (r : CorrectionResponse) (F : Nat) :
    parseVal (F + 3) (stringifyChars r) = some (resultJson r, []) := by
  have hshape : stringifyChars r
      = lbrace :: ('"' :: (encodeStrChars "correctedCode".toList ++ '"' :: ':' ::
          (quoteStr r.correctedCode ++ ',' ::
            ('"' :: (encodeStrChars "explanation".toList ++ '"' :: ':' ::
              (quoteStr r.explanation ++ ',' ::
                ('"' :: (encodeStrChars "issues".toList ++ '"' :: ':' ::
                  ('[' :: (issuesChars r.issues ++ ']' :: [rbrace])))))))))) := by
    simp only [stringifyChars, objInner, quoteStr, List.append_assoc, List.cons_append,
      List.singleton_append, List.nil_append]
  have hv1 : parseVal (F + 2)
      (quoteStr r.correctedCode ++ ',' ::
        ('"' :: (encodeStrChars "explanation".toList ++ '"' :: ':' ::
          (quoteStr r.explanation ++ ',' ::
            ('"' :: (encodeStrChars "issues".toList ++ '"' :: ':' ::
              ('[' :: (issuesChars r.issues ++ ']' :: [rbrace]))))))))
      = some (Json.str r.correctedCode,
          ',' :: ('"' :: (encodeStrChars "explanation".toList ++ '"' :: ':' ::
            (quoteStr r.explanation ++ ',' ::
              ('"' :: (encodeStrChars "issues".toList ++ '"' :: ':' ::
                ('[' :: (issuesChars r.issues ++ ']' :: [rbrace])))))))) :=
    parseVal_quote (F + 1) r.correctedCode _
  have hv2 : parseVal (F + 2)
      (quoteStr r.explanation ++ ',' ::
        ('"' :: (encodeStrChars "issues".toList ++ '"' :: ':' ::
          ('[' :: (issuesChars r.issues ++ ']' :: [rbrace])))))
      = some (Json.str r.explanation,
          ',' :: ('"' :: (encodeStrChars "issues".toList ++ '"' :: ':' ::
            ('[' :: (issuesChars r.issues ++ ']' :: [rbrace]))))) :=
    parseVal_quote (F + 1) r.explanation _
  have hv3 : parseVal (F + 2) ('[' :: (issuesChars r.issues ++ ']' :: [rbrace]))
      = some (Json.arr (r.issues.map Json.str), rbrace :: []) :=
    parseVal_issues F r.issues [rbrace]
  have h3 : parseMembersWith (parseVal (F + 2)) 3
      ('"' :: (encodeStrChars "correctedCode".toList ++ '"' :: ':' ::
        (quoteStr r.correctedCode ++ ',' ::
          ('"' :: (encodeStrChars "explanation".toList ++ '"' :: ':' ::
            (quoteStr r.explanation ++ ',' ::
              ('"' :: (encodeStrChars "issues".toList ++ '"' :: ':' ::
                ('[' :: (issuesChars r.issues ++ ']' :: [rbrace]))))))))))
      = some ([("correctedCode", Json.str r.correctedCode),
               ("explanation", Json.str r.explanation),
               ("issues", Json.arr (r.issues.map Json.str))], []) := by
    rw [show (3 : Nat) = 2 + 1 from rfl]
    rw [parseMembersWith_cons (parseVal (F + 2)) 2 "correctedCode"
        (Json.str r.correctedCode) _ _ hv1]
    rw [show (2 : Nat) = 1 + 1 from rfl]
    rw [parseMembersWith_cons (parseVal (F + 2)) 1 "explanation"
        (Json.str r.explanation) _ _ hv2]
    rw [show (1 : Nat) = 0 + 1 from rfl]
    rw [parseMembersWith_last (parseVal (F + 2)) 0 "issues"
        (Json.arr (r.issues.map Json.str)) _ _ hv3]
  rw [show F + 3 = (F + 2) + 1 from rfl, hshape, parseVal_lbrace_step, skipWs_dq]
  dsimp only
  rw [if_neg (show ¬(('"' : Char) = rbrace) by decide)]
  have hge : 3 ≤ ('"' :: (encodeStrChars "correctedCode".toList ++ '"' :: ':' ::
      (quoteStr r.correctedCode ++ ',' ::
        ('"' :: (encodeStrChars "explanation".toList ++ '"' :: ':' ::
          (quoteStr r.explanation ++ ',' ::
            ('"' :: (encodeStrChars "issues".toList ++ '"' :: ':' ::
              ('[' :: (issuesChars r.issues ++ ']' :: [rbrace])))))))))).length + 1 := by
    simp only [List.length_cons, List.length_append]
    omega
  rw [parseMembersWith_mono (parseVal (F + 2)) 3 _ hge _ _ h3]
  rfl

theorem jsTrimL_wrapped (mid : List Char) :
    jsTrimL (lbrace :: (mid ++ [rbrace])) = lbrace :: (mid ++ [rbrace]) := by
  have h1 : (lbrace :: (mid ++ [rbrace])).dropWhile jsWsChar = lbrace :: (mid ++ [rbrace]) := by
    rw [List.dropWhile_cons, jsWs_lbrace]
    simp
  have h2 : (lbrace :: (mid ++ [rbrace])).reverse = rbrace :: (mid.reverse ++ [lbrace]) := by
    simp
  have h3 : (rbrace :: (mid.reverse ++ [lbrace])).dropWhile jsWsChar
      = rbrace :: (mid.reverse ++ [lbrace]) := by
    rw [List.dropWhile_cons, jsWs_rbrace]
    simp
  unfold jsTrimL
  rw [h1, h2, h3, ← h2, List.reverse_reverse]

theorem fenceStrip_lbrace (l : List Char) : fenceStrip (lbrace :: l) = lbrace :: l := by
  unfold fenceStrip
  rw [show beginsWith fenceJson (lbrace :: l) = false from rfl,
      show beginsWith fence3 (lbrace :: l) = false from rfl]
  simp

theorem braceScan_wrapped (mid : List Char) :
    braceScan (lbrace :: (mid ++ [rbrace])) = lbrace :: (mid ++ [rbrace]) := by
  have h1 : (lbrace :: (mid ++ [rbrace])).dropWhile (fun c => c != lbrace)
      = lbrace :: (mid ++ [rbrace]) := by
    rw [List.dropWhile_cons]
    simp
  have h2 : (lbrace :: (mid ++ [rbrace])).reverse = rbrace :: (mid.reverse ++ [lbrace]) := by
    simp
  have h3 : (rbrace :: (mid.reverse ++ [lbrace])).dropWhile (fun c => c != rbrace)
      = rbrace :: (mid.reverse ++ [lbrace]) := by
    rw [List.dropWhile_cons]
    simp
  unfold braceScan
  rw [h1, h2, h3, ← h2, List.reverse_reverse]
  simp

theorem cleanCandidate_stringify (r : CorrectionResponse) :
    cleanCandidate (stringifyResult r) = stringifyChars r := by
  unfold cleanCandidate stringifyResult
  rw [toList_mk]
  rw [show stringifyChars r = lbrace :: (objInner r ++ [rbrace]) from rfl]
  rw [jsTrimL_wrapped, fenceStrip_lbrace, braceScan_wrapped]

theorem jsonParse_stringify (r : CorrectionResponse) :
    jsonParse (stringifyChars r) = some (resultJson r) := by
  unfold jsonParse
  have hge : 2 ≤ (stringifyChars r).length := by
    rw [show stringifyChars r = lbrace :: (objInner r ++ [rbrace]) from rfl]
    simp only [List.length_cons, List.length_append]
    omega
  obtain ⟨F, hF⟩ : ∃ F, (stringifyChars r).length + 1 = F + 3 :=
    ⟨(stringifyChars r).length - 2, by omega⟩
  rw [hF, parseVal_stringify r F]
  rfl

theorem str_append_ne_empty (a b : String) (ha : a.data ≠ []) : a ++ b ≠ "" := by
  intro h
  have hd : (a ++ b).data = [] := by rw [h]
  rw [String.data_append] at hd
  exact ha (List.append_eq_nil.mp hd).1

theorem truthyO_eq_true (o : Option Json) (h : truthyO o = true) :
    ∃ v, o = some v ∧ truthyV v = true := by
  cases o with
  | none => exact absurd h (by simp [truthyO])
  | some v => exact ⟨v, rfl, h⟩

theorem fallbackCorrected_ne_empty (code reply : String) :
    fallbackCorrected code reply ≠ "" := by
  unfold fallbackCorrected
  rw [String.append_assoc, String.append_assoc]
  exact str_append_ne_empty _ _ (by decide)

theorem jget_ok (p : Json) (hp : p ≠ Json.null) (key : String) :
    ∃ o, jget p key = Except.ok o := by
  cases p with
  | null => exact absurd rfl hp
  | obj fs => exact ⟨objGet fs key, rfl⟩
  | bool b => exact ⟨none, rfl⟩
  | num q => exact ⟨none, rfl⟩
  | str s => exact ⟨none, rfl⟩
  | arr xs => exact ⟨none, rfl⟩

theorem normalize_eq_fallback (code reply : String)
    (hp : jsonParse (cleanCandidate reply) = none) :
    normalize code reply =
      Except.ok ⟨Json.str (fallbackCorrected code reply), Json.str fallbackExplanation,
        Json.arr (fallbackIssues.map Json.str)⟩ := by
  unfold normalize
  rw [hp]

theorem normalize_eq_null (code reply : String)
    (hp : jsonParse (cleanCandidate reply) = some Json.null) :
    normalize code reply = Except.error (nullReadMessage "correctedCode") := by
  unfold normalize
  rw [hp]
  rfl

theorem normalize_eq_echo (code reply : String) (parsed : Json) (cc : Option Json)
    (hp : jsonParse (cleanCandidate reply) = some parsed)
    (hg : jget parsed "correctedCode" = Except.ok cc)
    (ht : truthyO cc = false) :
    normalize code reply =
      Except.ok ⟨Json.str code, Json.str missingExplanation,
        Json.arr (missingIssues.map Json.str)⟩ := by
  unfold normalize
  rw [hp]
  dsimp only
  rw [hg]
  dsimp only
  rw [if_pos ht]

theorem normalize_eq_validated (code reply : String) (parsed : Json)
    (cc exv isv : Option Json)
    (hp : jsonParse (cleanCandidate reply) = some parsed)
    (hg : jget parsed "correctedCode" = Except.ok cc)
    (ht : truthyO cc = true)
    (hex : jget parsed "explanation" = Except.ok exv)
    (his : jget parsed "issues" = Except.ok isv) :
    normalize code reply =
      Except.ok ⟨cc.getD Json.null,
        (if truthyO exv = true then exv.getD Json.null
         else Json.str cannedExplanation),
        issuesRepair isv⟩ := by
  unfold normalize
  rw [hp]
  dsimp only
  rw [hg]
  dsimp only
  rw [if_neg (by rw [ht]; exact fun hc => Bool.noConfusion hc)]
  rw [hex]
  dsimp only
  rw [his]

/-- C1 (amended): given input code that is non-blank after trimming,
for every provider reply whose cleaned form does not parse to the null
value, the normalization logic does not throw and produces a success
body whose three fields are all present and defined: the
`correctedCode` and `explanation` values are truthy (hence non-empty
whenever they are strings) and `issues` is always an array.  (The claim
as frozen is false in two ways, shown in the counterexample: a reply
parsing to null makes the runtime property access throw, which the
route reports as a generic server error, and the fields are not
guaranteed to be of string type.) -/
theorem normalize_fields_defined (code reply : String) (h : jsTrimS code ≠ "")
    (hn : jsonParse (cleanCandidate reply) ≠ some Json.null) :
    ∃ body : ResponseBody, normalize code reply = Except.ok body ∧
      truthyV body.correctedCode = true ∧
      truthyV body.explanation = true ∧
      ∃ xs, body.issues = Json.arr xs := by
  have hcode : code ≠ "" := by
    intro hc
    subst hc
    exact h rfl
  cases hp : jsonParse (cleanCandidate reply) with
  | none =>
    refine ⟨_, normalize_eq_fallback code reply hp, ?_, rfl,
      ⟨fallbackIssues.map Json.str, rfl⟩⟩
    simp only [truthyV, bne_iff_ne, ne_eq]
    exact fallbackCorrected_ne_empty code reply
  | some parsed =>
    have hpn : parsed ≠ Json.null := by
      intro he
      subst he
      exact hn hp
    obtain ⟨cc, hg⟩ := jget_ok parsed hpn "correctedCode"
    cases ht : truthyO cc with
    | false =>
      refine ⟨_, normalize_eq_echo code reply parsed cc hp hg ht, ?_, rfl,
        ⟨missingIssues.map Json.str, rfl⟩⟩
      simp only [truthyV, bne_iff_ne, ne_eq]
      exact hcode
    | true =>
      obtain ⟨exv, hex⟩ := jget_ok parsed hpn "explanation"
      obtain ⟨isv, his⟩ := jget_ok parsed hpn "issues"
      refine ⟨_, normalize_eq_validated code reply parsed cc exv isv hp hg ht hex his,
        ?_, ?_, ?_⟩
      · obtain ⟨v, hv, htv⟩ := truthyO_eq_true _ ht
        rw [hv]
        exact htv
      · by_cases he : truthyO exv = true
        · rw [if_pos he]
          obtain ⟨w, hw, htw⟩ := truthyO_eq_true _ he
          rw [hw]
          exact htw
        · rw [if_neg he]
          rfl
      · cases isv with
        | none => exact ⟨[.str defaultIssue], rfl⟩
        | some w =>
          cases w with
          | arr xs => exact ⟨xs, rfl⟩
          | null => exact ⟨[.str defaultIssue], rfl⟩
          | bool b => exact ⟨[.str defaultIssue], rfl⟩
          | num q => exact ⟨[.str defaultIssue], rfl⟩
          | str s => exact ⟨[.str defaultIssue], rfl⟩
          | obj fs => exact ⟨[.str defaultIssue], rfl⟩

/-- Witness for C1 (amended) at a concrete input. -/
theorem normalize_fields_defined_witness :
    ∃ body : ResponseBody, normalize "x" "" = Except.ok body ∧
      truthyV body.correctedCode = true ∧
      truthyV body.explanation = true ∧
      ∃ xs, body.issues = Json.arr xs :=
  normalize_fields_defined "x" "" (by decide)
    (by
      intro hc
      rw [show jsonParse (cleanCandidate "") = none from rfl] at hc
      exact Option.noConfusion hc)

/-- C1 (counterexample): a reply consisting of the null literal makes
the normalization logic throw (the runtime property access on null),
and the handler then answers with the generic server error — so the
normalization does not always succeed; and a reply whose
`correctedCode` member is the number five passes the truthiness check,
so the success body carries a numeric, not string, `correctedCode`. -/
theorem normalize_throws_nonstring_cex :
    normalize "x" "null" = Except.error (nullReadMessage "correctedCode") ∧
    handlePost true (.ok ⟨"x", "js", none⟩) (.ok "null")
      = .err 500 ⟨genericError, some (nullReadMessage "correctedCode")⟩ ∧
    normalize "x" "\x7b\"correctedCode\":5\x7d"
      = Except.ok ⟨Json.num 5, Json.str cannedExplanation, Json.arr [Json.str defaultIssue]⟩ ∧
    ∀ s : String, Json.num 5 ≠ Json.str s := by
  refine ⟨rfl, rfl, rfl, ?_⟩
  intro s h
  exact Json.noConfusion h

/-- C2: whenever the cleaned provider reply fails the structured-data
parse (in particular for plain prose), the result has exactly the three
fixed diagnostics as `issues`, and its `correctedCode` is the
comment-annotated raw reply followed by the original input code, so the
original code is a suffix. -/
theorem normalize_fallback_shape (code reply : String)
    (hp : jsonParse (cleanCandidate reply) = none) :
    normalize code reply
      = Except.ok ⟨Json.str (fallbackCorrected code reply), Json.str fallbackExplanation,
          Json.arr (fallbackIssues.map Json.str)⟩ ∧
    (fallbackIssues.map Json.str).length = 3 ∧
    ∃ p : String, fallbackCorrected code reply = p ++ code := by
  refine ⟨normalize_eq_fallback code reply hp, rfl,
    ⟨"// Groq response (parsing failed):\n// " ++ String.mk (annotate reply.toList) ++
      "\n\n// Original code:\n", ?_⟩⟩
  unfold fallbackCorrected
  rw [String.append_assoc, String.append_assoc]

/-- Witness for C2 at a concrete prose reply. -/
theorem normalize_fallback_shape_witness :
    normalize "x + 1" "I cannot help with that."
      = Except.ok ⟨Json.str (fallbackCorrected "x + 1" "I cannot help with that."),
          Json.str fallbackExplanation, Json.arr (fallbackIssues.map Json.str)⟩ ∧
    (fallbackIssues.map Json.str).length = 3 ∧
    ∃ p : String, fallbackCorrected "x + 1" "I cannot help with that." = p ++ "x + 1" :=
  normalize_fallback_shape "x + 1" "I cannot help with that." rfl

/-- C3: when the cleaned reply parses as an object whose
`correctedCode` member is missing or the empty string, the result
echoes the original input code back as `correctedCode` and carries
exactly the two fixed diagnostics as `issues`. -/
theorem normalize_missing_code_echo (code reply : String) (fs : List (String × Json))
    (hp : jsonParse (cleanCandidate reply) = some (Json.obj fs))
    (hm : objGet fs "correctedCode" = none ∨ objGet fs "correctedCode" = some (Json.str "")) :
    normalize code reply
      = Except.ok ⟨Json.str code, Json.str missingExplanation,
          Json.arr (missingIssues.map Json.str)⟩ ∧
    (missingIssues.map Json.str).length = 2 := by
  have hg : jget (Json.obj fs) "correctedCode" = Except.ok (objGet fs "correctedCode") := rfl
  have ht : truthyO (objGet fs "correctedCode") = false := by
    rcases hm with h | h <;> simp [h, truthyO, truthyV]
  exact ⟨normalize_eq_echo code reply (Json.obj fs) _ hp hg ht, rfl⟩

/-- Witness for C3 at a concrete structured reply without
`correctedCode`. -/
theorem normalize_missing_code_echo_witness :
    normalize "orig" "\x7b\"explanation\":\"hi\"\x7d"
      = Except.ok ⟨Json.str "orig", Json.str missingExplanation,
          Json.arr (missingIssues.map Json.str)⟩ ∧
    (missingIssues.map Json.str).length = 2 :=
  normalize_missing_code_echo "orig" "\x7b\"explanation\":\"hi\"\x7d"
    [("explanation", Json.str "hi")] rfl (Or.inl rfl)

/-- C4 (amended): for every correction result whose `correctedCode`
and `explanation` are non-empty strings, normalizing its exact
serialized form returns the three fields verbatim — the round trip is
the identity.  (The claim as frozen allows an empty `explanation`; the
counterexample shows that case is not preserved verbatim.) -/
theorem normalize_roundtrip (code : String) (r : CorrectionResponse)
    (h1 : r.correctedCode ≠ "") (h2 : r.explanation ≠ "") :
    normalize code (stringifyResult r)
      = Except.ok ⟨Json.str r.correctedCode, Json.str r.explanation,
          Json.arr (r.issues.map Json.str)⟩ := by
  have hp : jsonParse (cleanCandidate (stringifyResult r)) = some (resultJson r) := by
    rw [cleanCandidate_stringify, jsonParse_stringify]
  have hcc : jget (resultJson r) "correctedCode"
      = Except.ok (some (Json.str r.correctedCode)) := by
    simp [resultJson, jget, objGet]
  have hex : jget (resultJson r) "explanation"
      = Except.ok (some (Json.str r.explanation)) := by
    simp [resultJson, jget, objGet]
  have his : jget (resultJson r) "issues"
      = Except.ok (some (Json.arr (r.issues.map Json.str))) := by
    simp [resultJson, jget, objGet]
  have ht : truthyO (some (Json.str r.correctedCode)) = true := by
    simp [truthyO, truthyV, h1]
  rw [normalize_eq_validated code (stringifyResult r) (resultJson r) _ _ _ hp hcc ht hex his]
  rw [if_pos (show truthyO (some (Json.str r.explanation)) = true by
        simp [truthyO, truthyV, h2])]
  rfl

/-- Witness for C4 (amended) at a concrete well-formed result. -/
theorem normalize_roundtrip_witness :
    normalize "c" (stringifyResult ⟨"x", "y", ["z"]⟩)
      = Except.ok ⟨Json.str "x", Json.str "y", Json.arr [Json.str "z"]⟩ :=
  normalize_roundtrip "c" ⟨"x", "y", ["z"]⟩ (by decide) (by decide)

/-- C4 (counterexample): the serialized result with the empty string as
`explanation` does not round-trip verbatim — the normalizer replaces
the empty explanation with the canned sentence, because the runtime
check is a truthiness test and the empty string is falsy. -/
theorem normalize_roundtrip_empty_explanation_cex :
    stringifyResult ⟨"x", "", ["z"]⟩
      = "\x7b\"correctedCode\":\"x\",\"explanation\":\"\",\"issues\":[\"z\"]\x7d" ∧
    normalize "c" (stringifyResult ⟨"x", "", ["z"]⟩)
      = Except.ok ⟨Json.str "x", Json.str cannedExplanation, Json.arr [Json.str "z"]⟩ ∧
    Json.str cannedExplanation ≠ Json.str "" := by
  refine ⟨rfl, rfl, ?_⟩
  simp [cannedExplanation]

/-- C5: for every request whose code is blank after trimming (and a
configured credential), the handler answers with the bad-request
status and the fixed message, independently of the provider outcome —
so the external provider is never consulted. -/
theorem blank_code_bad_request (language : String) (description : Option String)
    (provider : Except String String) (code : String) (h : jsTrimS code = "") :
    handlePost true (.ok ⟨code, language, description⟩) provider
      = .err 400 ⟨"Code is required", none⟩ := by
  unfold handlePost
  simp [h]

/-- Witness for C5 at whitespace-only code. -/
theorem blank_code_bad_request_witness :
    handlePost true (.ok ⟨"  \n ", "python", none⟩) (.ok "\x7b\x7d")
      = .err 400 ⟨"Code is required", none⟩ :=
  blank_code_bad_request "python" none (.ok "\x7b\x7d") "  \n " (by decide)

/-- C6 (amended): when the cleaned reply parses as an object whose
`correctedCode` is a non-empty string, the result keeps that value; a
missing `explanation` is replaced by the fixed canned sentence; an
`issues` member that is absent or not an array is replaced by the fixed
one-element default sequence; but an `issues` member that is an array
is kept verbatim, even when its elements are not strings — the runtime
check is only an array check, not an element-type check.  (The claim as
frozen says any value that is not a proper ordered sequence of strings
is replaced; see the counterexample.) -/
theorem normalize_defaulting (code reply s : String) (fs : List (String × Json))
    (hp : jsonParse (cleanCandidate reply) = some (Json.obj fs))
    (hcc : objGet fs "correctedCode" = some (Json.str s)) (hs : s ≠ "") :
    ∃ body : ResponseBody, normalize code reply = Except.ok body ∧
      body.correctedCode = Json.str s ∧
      (objGet fs "explanation" = none →
        body.explanation = Json.str cannedExplanation) ∧
      ((∀ xs, objGet fs "issues" ≠ some (Json.arr xs)) →
        body.issues = Json.arr [Json.str defaultIssue]) ∧
      (∀ xs, objGet fs "issues" = some (Json.arr xs) →
        body.issues = Json.arr xs) := by
  have hg : jget (Json.obj fs) "correctedCode" = Except.ok (some (Json.str s)) := by
    simp [jget, hcc]
  have ht : truthyO (some (Json.str s)) = true := by
    simp [truthyO, truthyV, hs]
  refine ⟨_, normalize_eq_validated code reply (Json.obj fs) (some (Json.str s))
      (objGet fs "explanation") (objGet fs "issues") hp hg ht rfl rfl, rfl, ?_, ?_, ?_⟩
  · intro he
    show (if truthyO (objGet fs "explanation") = true then
        (objGet fs "explanation").getD Json.null
      else Json.str cannedExplanation) = Json.str cannedExplanation
    rw [if_neg (show ¬truthyO (objGet fs "explanation") = true by
      rw [he]
      exact fun hc => Bool.noConfusion hc)]
  · intro hi
    show issuesRepair (objGet fs "issues") = Json.arr [Json.str defaultIssue]
    cases hv : objGet fs "issues" with
    | none => rfl
    | some w =>
      cases w with
      | arr xs => exact absurd hv (hi xs)
      | null => rfl
      | bool b => rfl
      | num q => rfl
      | str s2 => rfl
      | obj fs2 => rfl
  · intro xs hxs
    show issuesRepair (objGet fs "issues") = Json.arr xs
    rw [hxs]
    rfl

/-- Witness for C6 (amended) at a structured reply containing only
`correctedCode`. -/
theorem normalize_defaulting_witness :
    ∃ body : ResponseBody,
      normalize "orig" "\x7b\"correctedCode\":\"x\"\x7d" = Except.ok body ∧
      body.correctedCode = Json.str "x" ∧
      (objGet [("correctedCode", Json.str "x")] "explanation" = none →
        body.explanation = Json.str cannedExplanation) ∧
      ((∀ xs, objGet [("correctedCode", Json.str "x")] "issues" ≠ some (Json.arr xs)) →
        body.issues = Json.arr [Json.str defaultIssue]) ∧
      (∀ xs, objGet [("correctedCode", Json.str "x")] "issues" = some (Json.arr xs) →
        body.issues = Json.arr xs) :=
  normalize_defaulting "orig" "\x7b\"correctedCode\":\"x\"\x7d" "x"
    [("correctedCode", Json.str "x")] rfl rfl (by decide)

/-- C6 (counterexample): a structured reply whose `issues` member is an
array of numbers is kept verbatim — the runtime only checks
`Array.isArray`, so the non-string sequence `[1]` is not replaced by
the default, refuting the claim as frozen. -/
theorem normalize_nonstring_issues_cex :
    normalize "c" "\x7b\"correctedCode\":\"x\",\"issues\":[1]\x7d"
      = Except.ok ⟨Json.str "x", Json.str cannedExplanation, Json.arr [Json.num 1]⟩ ∧
    ∀ s : String, Json.num 1 ≠ Json.str s := by
  refine ⟨rfl, ?_⟩
  intro s h
  exact Json.noConfusion h

/-- C7 (amended): on provider failure with message `m` (and a valid
request), the handler returns: unauthorized for credential messages,
too-many-requests for rate-limit messages, gateway-timeout for
timeout/network messages, a fixed format message with server-error
status and no details for structured-data (JSON/parse) messages, and
otherwise server-error with the underlying message in `details`. -/
theorem provider_error_classification (req : CorrectionRequest) (m : String)
    (hc : ¬(req.code = "" ∨ jsTrimS req.code = "")) :
    handlePost true (.ok req) (.error m) =
      (if jsIncludes m "API key" || jsIncludes m "authentication" ||
          jsIncludes m "unauthorized" then
        RouteResponse.err 401 ⟨authError, none⟩
      else if jsIncludes m "rate limit" || jsIncludes m "quota" ||
          jsIncludes m "limit exceeded" then
        RouteResponse.err 429 ⟨rateLimitError, none⟩
      else if jsIncludes m "timeout" || jsIncludes m "network" then
        RouteResponse.err 504 ⟨timeoutError, none⟩
      else if jsIncludes m "JSON" || jsIncludes m "parse" then
        RouteResponse.err 500 ⟨responseFormatError, none⟩
      else RouteResponse.err 500 ⟨genericError, some m⟩) := by
  unfold handlePost
  rw [if_neg (show ¬(true = false) from fun hc2 => Bool.noConfusion hc2)]
  dsimp only
  rw [if_neg hc]
  rfl

/-- Witness for C7 (amended) at a rate-limit message. -/
theorem provider_error_classification_witness :
    handlePost true (.ok ⟨"a", "js", none⟩) (.error "quota exceeded")
      = .err 429 ⟨rateLimitError, none⟩ := by
  rw [provider_error_classification ⟨"a", "js", none⟩ "quota exceeded" (by decide)]
  rfl

/-- C7 (counterexample): a provider failure whose message mentions
JSON is neither a credential, rate-limit, nor timeout message, yet the
handler answers with the fixed format message and an empty `details`
field — the underlying message is not preserved, contradicting the
claim as frozen. -/
theorem provider_error_json_no_details_cex :
    handlePost true (.ok ⟨"a", "js", none⟩) (.error "invalid JSON in response")
      = .err 500 ⟨responseFormatError, none⟩ ∧
    (RouteResponse.err 500 ⟨responseFormatError, none⟩
      ≠ RouteResponse.err 500 ⟨genericError, some "invalid JSON in response"⟩) := by
  refine ⟨rfl, ?_⟩
  simp

/-- C8: a provider reply wrapped in a markdown fence, labeled or bare,
around the exact three-field object normalizes to exactly those three
fields. -/
theorem fenced_reply_normalization :
    normalize "orig"
        "```json\n\x7b\"correctedCode\":\"x\",\"explanation\":\"y\",\"issues\":[\"z\"]\x7d\n```"
      = Except.ok ⟨Json.str "x", Json.str "y", Json.arr [Json.str "z"]⟩ ∧
    normalize "orig"
        "```\n\x7b\"correctedCode\":\"x\",\"explanation\":\"y\",\"issues\":[\"z\"]\x7d\n```"
      = Except.ok ⟨Json.str "x", Json.str "y", Json.arr [Json.str "z"]⟩ :=
  ⟨rfl, rfl⟩

/-- C9: when the provider credential is not configured, the handler
fails with the configuration message and server-error status, for every
request body and every provider behavior — the check precedes body
parsing and any provider call. -/
theorem missing_key_configuration (body : Except String CorrectionRequest)
    (provider : Except String String) :
    handlePost false body provider = .err 500 ⟨apiKeyMissingError, none⟩ := rfl

/-- C10: when the request body fails to parse, the thrown message (a
structured-data error mentioning JSON, as the runtime produces) escapes
to the outer classifier and yields the provider-format server-error
response with status 500 — not the bad-request status. -/
theorem invalid_body_json_maps_to_500 (m : String) (provider : Except String String)
    (h1 : jsIncludes m "JSON" = true ∨ jsIncludes m "parse" = true)
    (h2 : jsIncludes m "API key" = false) (h3 : jsIncludes m "authentication" = false)
    (h4 : jsIncludes m "unauthorized" = false) (h5 : jsIncludes m "rate limit" = false)
    (h6 : jsIncludes m "quota" = false) (h7 : jsIncludes m "limit exceeded" = false)
    (h8 : jsIncludes m "timeout" = false) (h9 : jsIncludes m "network" = false) :
    handlePost true (.error m) provider = .err 500 ⟨responseFormatError, none⟩ := by
  unfold handlePost classifyError
  rcases h1 with h1 | h1 <;> simp [h1, h2, h3, h4, h5, h6, h7, h8, h9]

/-- Witness for C10 at the runtime parse-error message shape. -/
theorem invalid_body_json_maps_to_500_witness :
    handlePost true (.error "Unexpected token u in JSON at position 0") (.ok "\x7b\x7d")
      = .err 500 ⟨responseFormatError, none⟩ :=
  invalid_body_json_maps_to_500 "Unexpected token u in JSON at position 0" (.ok "\x7b\x7d")
    (Or.inl (by decide)) (by decide) (by decide) (by decide) (by decide) (by decide)
    (by decide) (by decide) (by decide)

end AiCodeFixer
